import Mathlib

/-!
Verification of the VORA Assist retrieval-augmented chat pipeline.

Shallow embedding of the TypeScript sources: the chunkers
(`KnowledgeBase.chunkText`, `KnowledgeBase.chunkMarkdown`), the hybrid
retriever and reranker (`ChatInterface.performHybridRetrieval`,
`geminiService.rerankChunks`), cosine similarity (the `geminiService`
and `groqService` variants), the streaming answer generators
(`geminiService.askVoraStream`, `groqService.askGroqStream`), the
session store (`storageService`) and the session-sync logic of
`App`/`ChatInterface`.

Modelling conventions: scores and vector components are exact
rationals; cosine values live in `ℝ`; a JS expression that evaluates to
`NaN`/`Infinity` (division by a zero denominator, an out-of-bounds
array read) is modelled as `none` of an `Option`; text is `List Char`;
asynchronous provider calls are parameters (the provider's response, or
`none` for a thrown error), so that each code path is a total function
of the response it observed.
-/

set_option maxHeartbeats 1000000
set_option maxRecDepth 100000

/-! ## Stable descending sort

JS `Array.prototype.sort` with the comparator `(a, b) => keyB - keyA`
(used both by the hybrid retriever on `score` and by
`storageService.getChatSessions` on `updatedAt`) is a stable sort in
descending key order (ECMAScript 2019 requires sort stability).  We
model it as a stable insertion sort: an element is inserted in front of
the first element whose key is not larger, so that elements with equal
keys keep their original relative order. -/

section StableSort

variable {α : Type} {κ : Type} [LinearOrder κ] (key : α → κ)

/-- Insert `x` into `l` in front of the first element whose key is
`≤ key x`; elements with strictly larger keys are skipped. -/
def insertKeyDesc (x : α) : List α → List α
  | [] => [x]
  | y :: ys => if key x < key y then y :: insertKeyDesc x ys else x :: y :: ys

/-- Stable descending insertion sort by `key`. -/
def sortKeyDesc : List α → List α
  | [] => []
  | x :: xs => insertKeyDesc key x (sortKeyDesc xs)

theorem insertKeyDesc_perm (x : α) (l : List α) :
    List.Perm (insertKeyDesc key x l) (x :: l) := by
  induction l with
  | nil => simp [insertKeyDesc]
  | cons y ys ih =>
    by_cases h : key x < key y
    · rw [insertKeyDesc, if_pos h]
      exact (ih.cons y).trans (List.Perm.swap x y ys)
    · rw [insertKeyDesc, if_neg h]

theorem sortKeyDesc_perm (l : List α) : List.Perm (sortKeyDesc key l) l := by
  induction l with
  | nil => rfl
  | cons x xs ih =>
    exact (insertKeyDesc_perm key x (sortKeyDesc key xs)).trans (ih.cons x)

theorem insertKeyDesc_pairwise (x : α) (l : List α)
    (hl : l.Pairwise (fun a b => key b ≤ key a)) :
    (insertKeyDesc key x l).Pairwise (fun a b => key b ≤ key a) := by
  induction l with
  | nil => simp [insertKeyDesc]
  | cons y ys ih =>
    rcases List.pairwise_cons.mp hl with ⟨hy, hys⟩
    by_cases h : key x < key y
    · rw [insertKeyDesc, if_pos h]
      refine List.pairwise_cons.mpr ⟨?_, ih hys⟩
      intro z hz
      have hz' : z = x ∨ z ∈ ys :=
        List.mem_cons.mp ((insertKeyDesc_perm key x ys).mem_iff.mp hz)
      rcases hz' with rfl | hz'
      · exact le_of_lt h
      · exact hy z hz'
    · rw [insertKeyDesc, if_neg h]
      push_neg at h
      refine List.pairwise_cons.mpr ⟨?_, hl⟩
      intro z hz
      rcases List.mem_cons.mp hz with rfl | hz
      · exact h
      · exact le_trans (hy z hz) h

theorem sortKeyDesc_pairwise (l : List α) :
    (sortKeyDesc key l).Pairwise (fun a b => key b ≤ key a) := by
  induction l with
  | nil => simp [sortKeyDesc]
  | cons x xs ih => exact insertKeyDesc_pairwise key x _ ih

/-- Stability: restricting the inserted list to any fixed key value `s`
gives the same sequence as restricting the unsorted list, so equal-key
elements keep their input order. -/
theorem insertKeyDesc_filter (x : α) (l : List α) (s : κ) :
    (insertKeyDesc key x l).filter (fun a => key a = s) =
      ((x :: l).filter (fun a => key a = s) : List α) := by
  induction l with
  | nil => simp [insertKeyDesc]
  | cons y ys ih =>
    by_cases h : key x < key y
    · rw [insertKeyDesc, if_pos h]
      by_cases hy : key y = s
      · have hx : ¬ key x = s := fun hx => absurd (hx.trans hy.symm) (ne_of_lt h)
        simp [List.filter_cons, hy, hx, ih]
      · simp [List.filter_cons, hy, ih]
    · rw [insertKeyDesc, if_neg h]

theorem sortKeyDesc_filter (l : List α) (s : κ) :
    (sortKeyDesc key l).filter (fun a => key a = s) =
      l.filter (fun a => key a = s) := by
  induction l with
  | nil => rfl
  | cons x xs ih =>
    rw [sortKeyDesc, insertKeyDesc_filter]
    simp only [List.filter_cons, ih]

theorem sortKeyDesc_mem {l : List α} {a : α} :
    a ∈ sortKeyDesc key l ↔ a ∈ l := (sortKeyDesc_perm key l).mem_iff

end StableSort

/-! ## Fixed-window chunker

`KnowledgeBase.chunkText` (src/components/KnowledgeBase.tsx):

```
const chunkText = (text: string, size = 1000, overlap = 200): string[] => {
  const chunks: string[] = [];
  let start = 0;
  while (start < text.length) {
    chunks.push(text.slice(start, start + size));
    start += size - overlap;
  }
  return chunks;
};
```

The loop is modelled with explicit fuel (any fuel at least the number
of iterations gives the loop's result; `chunkText` supplies
`text.length + 1`, which suffices whenever `overlap < size`). -/

def chunkTextGo (text : List Char) (size overlap : ℕ) : ℕ → ℕ → List (List Char)
  | 0, _ => []
  | fuel + 1, start =>
    if start < text.length then
      ((text.drop start).take size) :: chunkTextGo text size overlap fuel (start + (size - overlap))
    else []

def chunkText (text : List Char) (size overlap : ℕ) : List (List Char) :=
  chunkTextGo text size overlap (text.length + 1) 0

/-- Number of window starts strictly below `text.length` when starting
from `start` and stepping by 800 (= 1000 - 200). -/
def windowCount (len start : ℕ) : ℕ := (len - start + 799) / 800

theorem chunkTextGo_formula (text : List Char) (fuel start : ℕ)
    (hfuel : windowCount text.length start ≤ fuel) :
    chunkTextGo text 1000 200 fuel start =
      (List.range (windowCount text.length start)).map
        (fun i => (text.drop (start + 800 * i)).take 1000) := by
  induction fuel generalizing start with
  | zero =>
    have h0 : windowCount text.length start = 0 := Nat.le_zero.mp hfuel
    rw [chunkTextGo, h0]
    rfl
  | succ fuel ih =>
    by_cases h : start < text.length
    · have hcnt : windowCount text.length start =
          windowCount text.length (start + 800) + 1 := by
        unfold windowCount
        omega
      rw [chunkTextGo, if_pos h, hcnt, List.range_succ_eq_map]
      have hfuel' : windowCount text.length (start + 800) ≤ fuel := by omega
      rw [ih (start + 800) hfuel']
      simp only [List.map_cons, List.map_map, Nat.mul_zero, Nat.add_zero]
      congr 1
      apply List.map_congr_left
      intro i _
      simp only [Function.comp_apply]
      congr 2
      omega
    · have h0 : windowCount text.length start = 0 := by
        unfold windowCount
        omega
      rw [chunkTextGo, if_neg h, h0]
      rfl

theorem chunkText_formula (text : List Char) :
    chunkText text 1000 200 =
      (List.range ((text.length + 799) / 800)).map
        (fun i => (text.drop (800 * i)).take 1000) := by
  have hfuel : windowCount text.length 0 ≤ text.length + 1 := by
    unfold windowCount
    omega
  rw [chunkText, chunkTextGo_formula text (text.length + 1) 0 hfuel]
  unfold windowCount
  simp

/-- C4: the fixed-window chunker with window 1000 and overlap 200
produces exactly the slices `text[start, start+1000)` for
`start = 0, 800, 1600, …` while the start is below the text length;
every chunk has length at most 1000; empty text yields no chunks; and a
3000-unit text yields exactly 4 chunks at offsets 0, 800, 1600, 2400. -/
theorem chunkText_spec (text : List Char) :
    (chunkText text 1000 200 =
        (List.range ((text.length + 799) / 800)).map
          (fun i => (text.drop (800 * i)).take 1000)) ∧
      (∀ c ∈ chunkText text 1000 200, c.length ≤ 1000) ∧
      (text = [] → chunkText text 1000 200 = []) ∧
      (text.length = 3000 →
        chunkText text 1000 200 =
          [text.take 1000, (text.drop 800).take 1000,
            (text.drop 1600).take 1000, (text.drop 2400).take 1000]) := by
  refine ⟨chunkText_formula text, ?_, ?_, ?_⟩
  · intro c hc
    rw [chunkText_formula text] at hc
    rcases List.mem_map.mp hc with ⟨i, _, rfl⟩
    simp
  · intro h
    subst h
    rfl
  · intro h3000
    rw [chunkText_formula text, h3000]
    norm_num [List.range_succ]

/-- Witness for `chunkText_spec` at a concrete 3000-character text. -/
theorem chunkText_spec_witness :
    (List.replicate 3000 'a').length = 3000 ∧
      chunkText (List.replicate 3000 'a') 1000 200 =
        [(List.replicate 3000 'a').take 1000,
          ((List.replicate 3000 'a').drop 800).take 1000,
          ((List.replicate 3000 'a').drop 1600).take 1000,
          ((List.replicate 3000 'a').drop 2400).take 1000] := by
  have hlen : (List.replicate 3000 'a').length = 3000 := by
    rw [List.length_replicate]
  exact ⟨hlen, (chunkText_spec (List.replicate 3000 'a')).2.2.2 hlen⟩

/-! ## Data model (src/types.ts)

`Message.isStreaming` and `Message.groundingSources` are the optional
fields the chat interface adds on top of the base interface; a JS
object that never sets `isStreaming` reads it as `undefined`, i.e.
falsy, modelled as `false`. -/

structure GroundingSource where
  title : String
  url : String
deriving DecidableEq

inductive Role
  | user
  | model
deriving DecidableEq

structure Message where
  id : String
  role : Role
  content : List Char
  timestamp : ℕ
  sources : Option (List String)
  groundingSources : Option (List GroundingSource)
  isStreaming : Bool
deriving DecidableEq

structure Document where
  id : String
  title : String
  content : List Char
  type : String
  category : String
  tags : List String
  createdAt : ℕ
deriving DecidableEq

structure DocumentChunk where
  id : String
  docId : String
  docTitle : String
  text : List Char
  embedding : List ℚ
deriving DecidableEq

structure ChatSession where
  id : String
  title : List Char
  messages : List Message
  updatedAt : ℕ
deriving DecidableEq

/-! ## Reranker (`geminiService.rerankChunks`, src/services/geminiService.ts)

```
rerankChunks: async (query, chunks) => {
  if (chunks.length <= 3) return chunks;
  if (!process.env.API_KEY) return chunks;
  ...
  try {
    const response = await ai.models.generateContent({...});
    const topIndices: number[] = JSON.parse(response.text || "[]");
    return topIndices.map(idx => chunks[idx]).filter(Boolean);
  } catch (err) {
    return chunks.slice(0, 3);
  }
}
```

The provider call is a parameter: `none` models a thrown provider
error or a response whose text fails `JSON.parse`; `some topIndices` a
successfully parsed integer array.  `chunks[idx]` with a negative or
out-of-range index reads `undefined`, which `.filter(Boolean)` drops. -/

def jsIndex (chunks : List DocumentChunk) (idx : ℤ) : Option DocumentChunk :=
  if idx < 0 then none else chunks[idx.toNat]?

def rerankChunks (hasApiKey : Bool) (response : Option (List ℤ))
    (chunks : List DocumentChunk) : List DocumentChunk :=
  if chunks.length ≤ 3 then chunks
  else if hasApiKey = false then chunks
  else
    match response with
    | none => chunks.take 3
    | some topIndices => (topIndices.map (jsIndex chunks)).filterMap id

/-- A chunk fixture used by concrete witnesses. -/
def testChunk (n : String) (t : List Char) : DocumentChunk :=
  { id := n, docId := n, docTitle := n, text := t, embedding := [] }

/-- Four pairwise distinct candidate chunks. -/
def fourChunks : List DocumentChunk :=
  [testChunk "c0" [], testChunk "c1" [], testChunk "c2" [], testChunk "c3" []]

/-- C2 counterexample: with four candidates and a missing API key the
reranker returns all four candidates, not the first three; and with an
API key and the provider response `[0, 1, 2, 3]` it returns four
chunks, exceeding the claimed bound of N = 3. -/
theorem rerankChunks_counterexample :
    rerankChunks false none fourChunks ≠ fourChunks.take 3 ∧
      3 < (rerankChunks true (some [0, 1, 2, 3]) fourChunks).length := by
  decide

/-- C2 (amended): with at most 3 candidates, or with a missing API
key, the candidates are returned unchanged; on a provider error or
unparseable response the result is exactly the first 3 candidates in
original order (the `catch` branch — no exception propagates); every
returned chunk comes from the input; and for a parsed provider
response the output has at most `max 3 topIndices.length` chunks (so a
response listing at most 3 indices yields at most 3 chunks). -/
theorem rerankChunks_spec (hasApiKey : Bool) (response : Option (List ℤ))
    (chunks : List DocumentChunk) :
    (chunks.length ≤ 3 → rerankChunks hasApiKey response chunks = chunks) ∧
      (rerankChunks false response chunks = chunks) ∧
      (3 < chunks.length → rerankChunks true none chunks = chunks.take 3) ∧
      (∀ c ∈ rerankChunks hasApiKey response chunks, c ∈ chunks) ∧
      (∀ topIndices : List ℤ,
        (rerankChunks true (some topIndices) chunks).length ≤
          max 3 topIndices.length) := by
  refine ⟨?_, ?_, ?_, ?_, ?_⟩
  · intro h
    simp [rerankChunks, h]
  · by_cases h : chunks.length ≤ 3
    · simp [rerankChunks, h]
    · simp [rerankChunks, h]
  · intro h
    simp [rerankChunks, Nat.not_le.mpr h]
  · intro c hc
    by_cases h : chunks.length ≤ 3
    · rw [rerankChunks.eq_def, if_pos h] at hc
      exact hc
    · rw [rerankChunks.eq_def, if_neg h] at hc
      by_cases hk : hasApiKey = false
      · rw [if_pos hk] at hc
        exact hc
      · rw [if_neg hk] at hc
        cases response with
        | none => exact List.mem_of_mem_take hc
        | some topIndices =>
          rcases List.mem_filterMap.mp hc with ⟨o, ho, hoc⟩
          rcases List.mem_map.mp ho with ⟨idx, _, rfl⟩
          rw [jsIndex] at hoc
          split at hoc
          · exact absurd hoc (by simp)
          · simp only [id] at hoc
            exact List.getElem?_mem hoc
  · intro topIndices
    by_cases h : chunks.length ≤ 3
    · rw [rerankChunks.eq_def, if_pos h]
      omega
    · rw [rerankChunks.eq_def, if_neg h]
      simp only [Bool.true_eq_false, if_false]
      calc ((topIndices.map (jsIndex chunks)).filterMap id).length
          ≤ (topIndices.map (jsIndex chunks)).length :=
            List.length_filterMap_le _ _
        _ = topIndices.length := List.length_map _ _
        _ ≤ max 3 topIndices.length := le_max_right _ _

/-- Witness for `rerankChunks_spec` at concrete inputs. -/
theorem rerankChunks_spec_witness :
    rerankChunks true none (fourChunks.take 2) = fourChunks.take 2 ∧
      rerankChunks true none fourChunks = fourChunks.take 3 ∧
      testChunk "c0" [] ∈ fourChunks := by
  refine ⟨(rerankChunks_spec true none (fourChunks.take 2)).1 (by decide),
    (rerankChunks_spec true none fourChunks).2.2.1 (by decide),
    (rerankChunks_spec true (some [0]) fourChunks).2.2.2.1
      (testChunk "c0" []) ?_⟩
  decide

/-! ## Cosine similarity

Two implementations exist in the sources.
`geminiService.cosineSimilarity` (src/services/geminiService.ts):

```
cosineSimilarity: (vecA, vecB) => {
  let dotProduct = 0; let normA = 0; let normB = 0;
  for (let i = 0; i < vecA.length; i++) {
    dotProduct += vecA[i] * vecB[i];
    normA += vecA[i] * vecA[i];
    normB += vecB[i] * vecB[i];
  }
  if (normA === 0 || normB === 0) return 0;
  return dotProduct / (Math.sqrt(normA) * Math.sqrt(normB));
}
```

`groqService.cosineSimilarity` (src/unnamed/part_003) is the same loop
but WITHOUT the zero-norm guard: it divides unconditionally.

The loop runs over the indices of `vecA` and reads the same indices of
`vecB`.  `cosSums` returns the three accumulated sums, or `none` when
the loop would read `vecB` past its end (in JS that read yields
`undefined` and poisons the sums with `NaN`).  A division whose
denominator is zero (JS `NaN`/`Infinity`) is likewise `none`. -/

def cosSums : List ℚ → List ℚ → Option (ℚ × ℚ × ℚ)
  | [], _ => some (0, 0, 0)
  | _ :: _, [] => none
  | x :: xs, y :: ys =>
    match cosSums xs ys with
    | none => none
    | some (d, na, nb) => some (d + x * y, na + x * x, nb + y * y)

/-- Sum of squares of a vector (the value `normA` takes when the loop
runs over the whole vector). -/
def sumSq (v : List ℚ) : ℚ := (v.map (fun x => x * x)).sum

/-- Dot product over the paired entries. -/
def dotProd (v w : List ℚ) : ℚ := ((v.zip w).map (fun p => p.1 * p.2)).sum

noncomputable def cosineSimilarity (vecA vecB : List ℚ) : Option ℝ :=
  match cosSums vecA vecB with
  | none => none
  | some (d, na, nb) =>
    if na = 0 ∨ nb = 0 then some 0
    else some ((d : ℝ) / (Real.sqrt (na : ℝ) * Real.sqrt (nb : ℝ)))

noncomputable def groqCosineSimilarity (vecA vecB : List ℚ) : Option ℝ :=
  match cosSums vecA vecB with
  | none => none
  | some (d, na, nb) =>
    if na = 0 ∨ nb = 0 then none
    else some ((d : ℝ) / (Real.sqrt (na : ℝ) * Real.sqrt (nb : ℝ)))

theorem cosSums_isSome : ∀ (v w : List ℚ),
    (cosSums v w).isSome = true ↔ v.length ≤ w.length := by
  intro v
  induction v with
  | nil => intro w; simp [cosSums]
  | cons x xs ih =>
    intro w
    cases w with
    | nil => simp [cosSums]
    | cons y ys =>
      rw [cosSums]
      rcases ho : cosSums xs ys with _ | ⟨d, na, nb⟩
      · have := (ih ys).symm
        simp [ho] at this
        simp [List.length_cons, this]
      · have : xs.length ≤ ys.length := by
          have h := (ih ys)
          rw [ho] at h
          simpa using h
        simp [List.length_cons, this]

theorem cosSums_eq_none {v w : List ℚ} (h : w.length < v.length) :
    cosSums v w = none := by
  have := (cosSums_isSome v w)
  rcases ho : cosSums v w with _ | s
  · rfl
  · rw [ho] at this
    simp at this
    omega

/-- The accumulated sums satisfy the Cauchy-Schwarz inequality and the
norms are nonnegative. -/
theorem cosSums_cauchy : ∀ (v w : List ℚ) (d na nb : ℚ),
    cosSums v w = some (d, na, nb) →
      d * d ≤ na * nb ∧ 0 ≤ na ∧ 0 ≤ nb := by
  intro v
  induction v with
  | nil =>
    intro w d na nb h
    rw [cosSums] at h
    injection h with h'
    obtain ⟨rfl, rfl, rfl⟩ : d = 0 ∧ na = 0 ∧ nb = 0 := by
      constructor
      · exact congrArg Prod.fst h'.symm
      constructor
      · exact congrArg (fun p => p.2.1) h'.symm
      · exact congrArg (fun p => p.2.2) h'.symm
    norm_num
  | cons x xs ih =>
    intro w d na nb h
    cases w with
    | nil => exact absurd h (by simp [cosSums])
    | cons y ys =>
      rw [cosSums] at h
      rcases ho : cosSums xs ys with _ | ⟨⟨d0, na0, nb0⟩⟩
      · rw [ho] at h
        exact absurd h (by simp)
      · rw [ho] at h
        injection h with h'
        have hd : d = d0 + x * y := (congrArg Prod.fst h').symm
        have hna : na = na0 + x * x := (congrArg (fun p => p.2.1) h').symm
        have hnb : nb = nb0 + y * y := (congrArg (fun p => p.2.2) h').symm
        obtain ⟨hc, hna0, hnb0⟩ := ih ys d0 na0 nb0 ho
        subst hd hna hnb
        refine ⟨?_, by nlinarith [sq_nonneg x], by nlinarith [sq_nonneg y]⟩
        have hstep : 2 * (x * y) * d0 ≤ na0 * (y * y) + (x * x) * nb0 := by
          rcases eq_or_lt_of_le hnb0 with hnb0eq | hnbpos
          · have hd0 : d0 = 0 := by nlinarith [hc, sq_nonneg d0]
            subst hd0
            nlinarith [mul_nonneg hna0 (sq_nonneg y), mul_nonneg (sq_nonneg x) hnb0]
          · have h1 : d0 * d0 * (y * y) ≤ na0 * nb0 * (y * y) :=
              mul_le_mul_of_nonneg_right hc (mul_self_nonneg y)
            nlinarith [sq_nonneg (d0 * y - x * nb0), h1, hnbpos]
        nlinarith [hc, hstep]

/-- On the diagonal the three sums coincide with the sum of squares. -/
theorem cosSums_self (v : List ℚ) :
    cosSums v v = some (dotProd v v, sumSq v, sumSq v) ∧
      dotProd v v = sumSq v := by
  induction v with
  | nil => simp [cosSums, dotProd, sumSq]
  | cons x xs ih =>
    obtain ⟨h1, h2⟩ := ih
    constructor
    · rw [cosSums, h1]
      simp only [dotProd, sumSq, List.zip_cons_cons, List.map_cons, List.sum_cons]
      rw [show ((xs.zip xs).map (fun p => p.1 * p.2)).sum = dotProd xs xs from rfl,
        show ((xs.map (fun x => x * x)).sum : ℚ) = sumSq xs from rfl, h2]
      ring_nf
    · simp only [dotProd, sumSq, List.zip_cons_cons, List.map_cons, List.sum_cons]
      rw [show ((xs.zip xs).map (fun p => p.1 * p.2)).sum = dotProd xs xs from rfl,
        show ((xs.map (fun x => x * x)).sum : ℚ) = sumSq xs from rfl, h2]

theorem sumSq_nonneg (v : List ℚ) : 0 ≤ sumSq v := by
  induction v with
  | nil => simp [sumSq]
  | cons x xs ih =>
    simp only [sumSq, List.map_cons, List.sum_cons]
    have := mul_self_nonneg x
    have : (0 : ℚ) ≤ (xs.map (fun x => x * x)).sum := ih
    nlinarith [mul_self_nonneg x]

theorem sumSq_pos {v : List ℚ} (hv : ∃ x ∈ v, x ≠ 0) : 0 < sumSq v := by
  induction v with
  | nil => simp at hv
  | cons x xs ih =>
    simp only [sumSq, List.map_cons, List.sum_cons]
    rcases hv with ⟨z, hz, hz0⟩
    rcases List.mem_cons.mp hz with rfl | hz
    · have h1 : 0 < z * z := mul_self_pos.mpr hz0
      have hxs : (0 : ℚ) ≤ (xs.map (fun x => x * x)).sum := sumSq_nonneg xs
      nlinarith
    · have h2 : 0 < sumSq xs := ih ⟨z, hz, hz0⟩
      have : (0 : ℚ) < (xs.map (fun x => x * x)).sum := h2
      nlinarith [mul_self_nonneg x]

theorem cosSums_eq (v w : List ℚ) (h : v.length ≤ w.length) :
    cosSums v w = some (dotProd v w, sumSq v, sumSq (w.take v.length)) := by
  induction v generalizing w with
  | nil => simp [cosSums, dotProd, sumSq]
  | cons x xs ih =>
    cases w with
    | nil => simp at h
    | cons y ys =>
      have h' : xs.length ≤ ys.length := by simpa using h
      rw [cosSums, ih ys h']
      simp only [dotProd, sumSq, List.zip_cons_cons, List.map_cons, List.sum_cons,
        List.length_cons, List.take_succ_cons]
      refine congrArg some ?_
      simp only [Prod.ext_iff]
      refine ⟨by ring, by ring, by ring⟩

theorem cos_div_range {d na nb : ℚ} (hc : d * d ≤ na * nb)
    (hna : 0 < na) (hnb : 0 < nb) :
    -1 ≤ (d : ℝ) / (Real.sqrt (na : ℝ) * Real.sqrt (nb : ℝ)) ∧
      (d : ℝ) / (Real.sqrt (na : ℝ) * Real.sqrt (nb : ℝ)) ≤ 1 := by
  have hna' : (0 : ℝ) < (na : ℝ) := by exact_mod_cast hna
  have hnb' : (0 : ℝ) < (nb : ℝ) := by exact_mod_cast hnb
  have hden : 0 < Real.sqrt (na : ℝ) * Real.sqrt (nb : ℝ) :=
    mul_pos (Real.sqrt_pos.mpr hna') (Real.sqrt_pos.mpr hnb')
  have hc' : (d : ℝ) * (d : ℝ) ≤ (na : ℝ) * (nb : ℝ) := by exact_mod_cast hc
  have habs : |(d : ℝ)| ≤ Real.sqrt ((na : ℝ) * (nb : ℝ)) := by
    rw [← Real.sqrt_sq_eq_abs]
    apply Real.sqrt_le_sqrt
    nlinarith
  rw [Real.sqrt_mul (le_of_lt hna')] at habs
  obtain ⟨hlo, hhi⟩ := abs_le.mp habs
  constructor
  · rw [le_div_iff₀ hden]
    linarith
  · rw [div_le_one hden]
    linarith

theorem cosineSimilarity_eq {a b : List ℚ} {d na nb : ℚ}
    (h : cosSums a b = some (d, na, nb)) :
    cosineSimilarity a b =
      if na = 0 ∨ nb = 0 then some 0
      else some ((d : ℝ) / (Real.sqrt (na : ℝ) * Real.sqrt (nb : ℝ))) := by
  rw [cosineSimilarity, h]

theorem groqCosineSimilarity_eq {a b : List ℚ} {d na nb : ℚ}
    (h : cosSums a b = some (d, na, nb)) :
    groqCosineSimilarity a b =
      if na = 0 ∨ nb = 0 then none
      else some ((d : ℝ) / (Real.sqrt (na : ℝ) * Real.sqrt (nb : ℝ))) := by
  rw [groqCosineSimilarity, h]

/-- C5 counterexample: the `groqService.cosineSimilarity` variant
cited by the claim has no zero-norm guard; on the zero vector its
division is 0/0, JS `NaN` (modelled `none`), not the claimed 0. -/
theorem groq_cosine_zero_norm_counterexample :
    groqCosineSimilarity [(0 : ℚ)] [(0 : ℚ)] ≠ some (0 : ℝ) := by
  have hs : cosSums [(0 : ℚ)] [(0 : ℚ)] = some (0, 0, 0) := by
    simp [cosSums]
  simp [groqCosineSimilarity, hs]

/-- C5 (amended): for equal-length vectors both implementations return
a value in [-1, 1] whenever they return a number, and both return
exactly 1 on a non-zero vector paired with itself; on zero-norm input
the `geminiService` implementation returns exactly 0 as the claim
states, but the `groqService` implementation (no guard) divides by a
zero denominator and produces a non-numeric value (JS `NaN`, modelled
`none`) instead of 0. -/
theorem cosineSimilarity_spec (a b v : List ℚ)
    (hab : a.length = b.length) (hv : ∃ x ∈ v, x ≠ 0) :
    (∀ r : ℝ, cosineSimilarity a b = some r → -1 ≤ r ∧ r ≤ 1) ∧
      (sumSq a = 0 ∨ sumSq b = 0 → cosineSimilarity a b = some 0) ∧
      cosineSimilarity v v = some 1 ∧
      (∀ r : ℝ, groqCosineSimilarity a b = some r → -1 ≤ r ∧ r ≤ 1) ∧
      (sumSq a = 0 ∨ sumSq b = 0 → groqCosineSimilarity a b = none) ∧
      groqCosineSimilarity v v = some 1 := by
  have hsums : cosSums a b = some (dotProd a b, sumSq a, sumSq b) := by
    have := cosSums_eq a b (le_of_eq hab)
    rwa [hab, List.take_length] at this
  have hself : cosSums v v = some (sumSq v, sumSq v, sumSq v) := by
    obtain ⟨h1, h2⟩ := cosSums_self v
    rwa [h2] at h1
  have hSpos : 0 < sumSq v := sumSq_pos hv
  have hSne : (sumSq v : ℝ) ≠ 0 := by
    have : (0 : ℝ) < (sumSq v : ℝ) := by exact_mod_cast hSpos
    linarith
  have hSnn : (0 : ℝ) ≤ (sumSq v : ℝ) := le_of_lt (by exact_mod_cast hSpos)
  have hone : (sumSq v : ℝ) / (Real.sqrt (sumSq v : ℝ) * Real.sqrt (sumSq v : ℝ)) = 1 := by
    rw [Real.mul_self_sqrt hSnn]
    exact div_self hSne
  refine ⟨?_, ?_, ?_, ?_, ?_, ?_⟩
  · intro r hr
    rw [cosineSimilarity_eq hsums] at hr
    by_cases hz : sumSq a = 0 ∨ sumSq b = 0
    · rw [if_pos hz] at hr
      injection hr with hr
      subst hr
      norm_num
    · rw [if_neg hz] at hr
      injection hr with hr
      subst hr
      push_neg at hz
      obtain ⟨hc, hna, hnb⟩ := cosSums_cauchy a b _ _ _ hsums
      exact cos_div_range hc (lt_of_le_of_ne hna (Ne.symm hz.1))
        (lt_of_le_of_ne hnb (Ne.symm hz.2))
  · intro hz
    rw [cosineSimilarity_eq hsums, if_pos hz]
  · rw [cosineSimilarity_eq hself,
      if_neg (by push_neg; exact ⟨ne_of_gt hSpos, ne_of_gt hSpos⟩), hone]
  · intro r hr
    rw [groqCosineSimilarity_eq hsums] at hr
    by_cases hz : sumSq a = 0 ∨ sumSq b = 0
    · rw [if_pos hz] at hr
      exact absurd hr (by simp)
    · rw [if_neg hz] at hr
      injection hr with hr
      subst hr
      push_neg at hz
      obtain ⟨hc, hna, hnb⟩ := cosSums_cauchy a b _ _ _ hsums
      exact cos_div_range hc (lt_of_le_of_ne hna (Ne.symm hz.1))
        (lt_of_le_of_ne hnb (Ne.symm hz.2))
  · intro hz
    rw [groqCosineSimilarity_eq hsums, if_pos hz]
  · rw [groqCosineSimilarity_eq hself,
      if_neg (by push_neg; exact ⟨ne_of_gt hSpos, ne_of_gt hSpos⟩), hone]

/-- Witness for `cosineSimilarity_spec` at concrete vectors. -/
theorem cosineSimilarity_spec_witness :
    cosineSimilarity [(1 : ℚ)] [(0 : ℚ)] = some 0 ∧
      cosineSimilarity [(3 : ℚ), 4] [(3 : ℚ), 4] = some 1 ∧
      groqCosineSimilarity [(3 : ℚ), 4] [(3 : ℚ), 4] = some 1 ∧
      groqCosineSimilarity [(1 : ℚ)] [(0 : ℚ)] = none := by
  obtain ⟨-, h2, h3, -, h5, h6⟩ :=
    cosineSimilarity_spec [(1 : ℚ)] [(0 : ℚ)] [(3 : ℚ), 4]
      (by decide) ⟨3, by simp, by norm_num⟩
  exact ⟨h2 (Or.inr (by simp [sumSq])), h3, h6, h5 (Or.inr (by simp [sumSq]))⟩

/-- C10: the similarity loop runs over the indices of its first
argument and reads the same indices of its second; with equal lengths
every read is in bounds — the out-of-bounds branch (`none`) is
unreachable and `cosineSimilarity` returns a value — while a second
vector shorter than the first is read past its end, poisoning the
sums (`none`). -/
theorem cosSums_inbounds_spec (a b : List ℚ) :
    (a.length = b.length →
      (cosSums a b).isSome = true ∧ cosineSimilarity a b ≠ none) ∧
      (b.length < a.length →
        cosSums a b = none ∧ cosineSimilarity a b = none) := by
  constructor
  · intro h
    have h1 : (cosSums a b).isSome = true :=
      (cosSums_isSome a b).mpr (le_of_eq h)
    refine ⟨h1, ?_⟩
    rcases ho : cosSums a b with _ | ⟨d, na, nb⟩
    · rw [ho] at h1
      simp at h1
    · rw [cosineSimilarity_eq ho]
      by_cases hz : na = 0 ∨ nb = 0
      · simp [hz]
      · simp [hz]
  · intro h
    have h0 : cosSums a b = none := cosSums_eq_none h
    exact ⟨h0, by rw [cosineSimilarity, h0]⟩

/-- Witness for `cosSums_inbounds_spec` at concrete vectors. -/
theorem cosSums_inbounds_spec_witness :
    ((cosSums [(1 : ℚ), 2] [(3 : ℚ), 4]).isSome = true ∧
        cosineSimilarity [(1 : ℚ), 2] [(3 : ℚ), 4] ≠ none) ∧
      (cosSums [(1 : ℚ), 2] [(3 : ℚ)] = none ∧
        cosineSimilarity [(1 : ℚ), 2] [(3 : ℚ)] = none) :=
  ⟨(cosSums_inbounds_spec [(1 : ℚ), 2] [(3 : ℚ), 4]).1 (by decide),
    (cosSums_inbounds_spec [(1 : ℚ), 2] [(3 : ℚ)]).2 (by decide)⟩

/-! ## Hybrid retriever (`ChatInterface.performHybridRetrieval`,
src/components/ChatInterface.tsx)

```
const performHybridRetrieval = async (query) => {
  if (cachedChunks.length === 0) return [];
  try {
    const queryEmbedding = await geminiService.getEmbedding(query);
    const queryWords = query.toLowerCase().split(/\W+/).filter(w => w.length > 2);
    const scoredChunks = cachedChunks.map(chunk => {
      const vectorSimilarity = geminiService.cosineSimilarity(queryEmbedding, chunk.embedding);
      let textScore = 0;
      const chunkTextLower = chunk.text.toLowerCase();
      queryWords.forEach(word => { if (chunkTextLower.includes(word)) textScore += 0.15; });
      const hybridScore = (vectorSimilarity * 0.7) + (textScore * 0.3);
      return { chunk, score: hybridScore };
    });
    const topCandidates = scoredChunks
      .filter(item => item.score > 0.3)
      .sort((a, b) => b.score - a.score)
      .slice(0, 15)
      .map(item => item.chunk);
    if (topCandidates.length > 0) { ... return rerankChunks(query, topCandidates); }
    return [];
  } catch (e) { return []; }
};
```

The per-chunk vector similarity depends on the embedding returned by
the network, so it is a parameter `vectorScore` here (in the code it is
`cosineSimilarity(queryEmbedding, chunk.embedding)`); the `rerank`
stage and the success of the embedding call are likewise parameters.
The second component of `performHybridRetrieval`'s result counts how
many times the embedding capability was invoked. -/

/-- JS `\w`, i.e. `[A-Za-z0-9_]`. -/
def isWordChar (c : Char) : Bool := c.isAlphanum || c = '_'

/-- JS `String.prototype.toLowerCase` on ASCII text. -/
def toLowerStr (l : List Char) : List Char := l.map Char.toLower

/-- `split(/\W+/)` restricted to the maximal runs of word characters.
(JS split may additionally yield empty segments at the ends; the caller
keeps only words of length > 2, so those never survive the filter.) -/
def wordRunsAux : List Char → List Char → List (List Char)
  | acc, [] => if acc.isEmpty then [] else [acc.reverse]
  | acc, c :: rest =>
    if isWordChar c then wordRunsAux (c :: acc) rest
    else if acc.isEmpty then wordRunsAux [] rest
    else acc.reverse :: wordRunsAux [] rest

def wordRuns (l : List Char) : List (List Char) := wordRunsAux [] l

/-- `query.toLowerCase().split(/\W+/).filter(w => w.length > 2)`. -/
def queryWordsOf (query : List Char) : List (List Char) :=
  (wordRuns (toLowerStr query)).filter (fun w => 2 < w.length)

/-- The keyword accumulation: +0.15 per query word that occurs as a
substring of the lowercased chunk text. -/
def textScore (queryWords : List (List Char)) (chunkTextLower : List Char) : ℚ :=
  queryWords.foldl
    (fun acc w => if w <:+: chunkTextLower then acc + 15 / 100 else acc) 0

/-- `(vectorSimilarity * 0.7) + (textScore * 0.3)`. -/
def hybridScore (vectorScore : DocumentChunk → ℚ) (queryWords : List (List Char))
    (chunk : DocumentChunk) : ℚ :=
  vectorScore chunk * (7 / 10) +
    textScore queryWords (toLowerStr chunk.text) * (3 / 10)

/-- The `{ chunk, score }` records built by `cachedChunks.map`. -/
structure ScoredChunk where
  chunk : DocumentChunk
  score : ℚ
deriving DecidableEq

def scoredChunks (vectorScore : DocumentChunk → ℚ) (queryWords : List (List Char))
    (chunks : List DocumentChunk) : List ScoredChunk :=
  chunks.map (fun chunk => ⟨chunk, hybridScore vectorScore queryWords chunk⟩)

/-- `.filter(item => item.score > 0.3).sort((a, b) => b.score - a.score)
.slice(0, 15).map(item => item.chunk)`. -/
def topCandidates (vectorScore : DocumentChunk → ℚ) (query : List Char)
    (cachedChunks : List DocumentChunk) : List DocumentChunk :=
  ((sortKeyDesc ScoredChunk.score
      ((scoredChunks vectorScore (queryWordsOf query) cachedChunks).filter
        (fun item => 3 / 10 < item.score))).take 15).map ScoredChunk.chunk

/-- The whole retrieval step; the second component counts invocations
of the embedding capability.  `embedOk = false` models a thrown
`getEmbedding` (the `catch` branch returns `[]`). -/
def performHybridRetrieval (embedOk : Bool) (vectorScore : DocumentChunk → ℚ)
    (rerank : List DocumentChunk → List DocumentChunk) (query : List Char)
    (cachedChunks : List DocumentChunk) : List DocumentChunk × ℕ :=
  if cachedChunks.length = 0 then ([], 0)
  else if embedOk = false then ([], 1)
  else
    let tops := topCandidates vectorScore query cachedChunks
    if 0 < tops.length then (rerank tops, 1) else ([], 1)

theorem mem_take_sorted_scored {vectorScore : DocumentChunk → ℚ}
    {query : List Char} {cachedChunks : List DocumentChunk} {item : ScoredChunk}
    (h : item ∈ (sortKeyDesc ScoredChunk.score
      ((scoredChunks vectorScore (queryWordsOf query) cachedChunks).filter
        (fun item => 3 / 10 < item.score))).take 15) :
    item.chunk ∈ cachedChunks ∧
      item.score = hybridScore vectorScore (queryWordsOf query) item.chunk ∧
      3 / 10 < item.score := by
  have h1 : item ∈ sortKeyDesc ScoredChunk.score
      ((scoredChunks vectorScore (queryWordsOf query) cachedChunks).filter
        (fun item => 3 / 10 < item.score)) := List.mem_of_mem_take h
  have h2 := (sortKeyDesc_mem ScoredChunk.score).mp h1
  have h3 := List.mem_filter.mp h2
  have h4 : 3 / 10 < item.score := by
    have := h3.2
    simpa using this
  rcases List.mem_map.mp h3.1 with ⟨c, hc, rfl⟩
  exact ⟨hc, rfl, h4⟩

/-- Scenario fixture: chunk A contains both query words. -/
def chunkA : DocumentChunk := testChunk "A" "we deploy and rollback services".toList

/-- Scenario fixture: chunk B contains neither query word. -/
def chunkB : DocumentChunk := testChunk "B" "unrelated text".toList

/-- Scenario vector similarities: 0.5 for chunk A, 0.6 for chunk B. -/
def scenarioVectorScore (c : DocumentChunk) : ℚ := if c.id = "A" then 1 / 2 else 3 / 5

def scenarioQuery : List Char := "deploy rollback".toList

theorem scenario_queryWords :
    queryWordsOf scenarioQuery = ["deploy".toList, "rollback".toList] := by
  decide

theorem scenario_scoreA :
    hybridScore scenarioVectorScore (queryWordsOf scenarioQuery) chunkA = 44 / 100 := by
  rw [hybridScore, scenario_queryWords]
  have ht : textScore ["deploy".toList, "rollback".toList] (toLowerStr chunkA.text) =
      0 + 15 / 100 + 15 / 100 := by
    simp only [textScore, List.foldl_cons, List.foldl_nil]
    rw [if_pos (by decide), if_pos (by decide)]
  rw [ht]
  have hv : scenarioVectorScore chunkA = 1 / 2 := by
    rw [scenarioVectorScore, if_pos (by decide)]
  rw [hv]
  norm_num

theorem scenario_scoreB :
    hybridScore scenarioVectorScore (queryWordsOf scenarioQuery) chunkB = 42 / 100 := by
  rw [hybridScore, scenario_queryWords]
  have ht : textScore ["deploy".toList, "rollback".toList] (toLowerStr chunkB.text) = 0 := by
    simp only [textScore, List.foldl_cons, List.foldl_nil]
    rw [if_neg (by decide), if_neg (by decide)]
  rw [ht]
  have hv : scenarioVectorScore chunkB = 3 / 5 := by
    rw [scenarioVectorScore, if_neg (by decide)]
  rw [hv]
  norm_num

theorem scenario_ranking :
    topCandidates scenarioVectorScore scenarioQuery [chunkA, chunkB] = [chunkA, chunkB] := by
  have hscored : scoredChunks scenarioVectorScore (queryWordsOf scenarioQuery)
      [chunkA, chunkB] = [⟨chunkA, 44 / 100⟩, ⟨chunkB, 42 / 100⟩] := by
    rw [scoredChunks, List.map_cons, List.map_cons, List.map_nil,
      scenario_scoreA, scenario_scoreB]
  have h1 : (3 : ℚ) / 10 < 44 / 100 := by norm_num
  have h2 : (3 : ℚ) / 10 < 42 / 100 := by norm_num
  have h3 : ¬ ((44 : ℚ) / 100 < 42 / 100) := by norm_num
  rw [topCandidates, hscored]
  rw [show ([⟨chunkA, 44 / 100⟩, ⟨chunkB, 42 / 100⟩] : List ScoredChunk).filter
        (fun item => 3 / 10 < item.score) =
      [⟨chunkA, 44 / 100⟩, ⟨chunkB, 42 / 100⟩] by simp [List.filter_cons, h1, h2]]
  rw [show sortKeyDesc ScoredChunk.score
        ([⟨chunkA, 44 / 100⟩, ⟨chunkB, 42 / 100⟩] : List ScoredChunk) =
      [⟨chunkA, 44 / 100⟩, ⟨chunkB, 42 / 100⟩] by
    simp [sortKeyDesc, insertKeyDesc, h3]]
  rfl

/-- C3: the hybrid retriever's candidate ranking returns at most 15
chunks, drawn from the input; every returned chunk's combined score
`0.7 * vectorScore + 0.3 * textScore` exceeds the 0.3 threshold (so no
candidate below the threshold appears); the ranking is non-increasing
in combined score, with ties kept in original chunk order (restricting
the sorted candidate list to any fixed score value leaves the input
order unchanged); on an empty chunk set the result is empty and the
embedding capability is never invoked; and in the spec's scenario
(query "deploy rollback", chunk A holding both words with vector
similarity 0.5 and combined score 0.44, chunk B holding neither with
vector similarity 0.6 and combined score 0.42) chunk A ranks above
chunk B. -/
theorem performHybridRetrieval_spec (vectorScore : DocumentChunk → ℚ)
    (query : List Char) (cachedChunks : List DocumentChunk) :
    (topCandidates vectorScore query cachedChunks).length ≤ 15 ∧
      (∀ c ∈ topCandidates vectorScore query cachedChunks, c ∈ cachedChunks) ∧
      (∀ c ∈ topCandidates vectorScore query cachedChunks,
        3 / 10 < hybridScore vectorScore (queryWordsOf query) c) ∧
      (topCandidates vectorScore query cachedChunks).Pairwise
        (fun c d => hybridScore vectorScore (queryWordsOf query) d ≤
          hybridScore vectorScore (queryWordsOf query) c) ∧
      (∀ s : ℚ,
        (sortKeyDesc ScoredChunk.score
            ((scoredChunks vectorScore (queryWordsOf query) cachedChunks).filter
              (fun item => 3 / 10 < item.score))).filter
            (fun item => item.score = s) =
          ((scoredChunks vectorScore (queryWordsOf query) cachedChunks).filter
              (fun item => 3 / 10 < item.score)).filter
            (fun item => item.score = s)) ∧
      (∀ (embedOk : Bool) (rerank : List DocumentChunk → List DocumentChunk),
        performHybridRetrieval embedOk vectorScore rerank query [] = ([], 0)) ∧
      hybridScore scenarioVectorScore (queryWordsOf scenarioQuery) chunkA = 44 / 100 ∧
      hybridScore scenarioVectorScore (queryWordsOf scenarioQuery) chunkB = 42 / 100 ∧
      topCandidates scenarioVectorScore scenarioQuery [chunkA, chunkB] =
        [chunkA, chunkB] := by
  refine ⟨?_, ?_, ?_, ?_, ?_, ?_, scenario_scoreA, scenario_scoreB, scenario_ranking⟩
  · rw [topCandidates, List.length_map]
    exact List.length_take_le 15 _
  · intro c hc
    rcases List.mem_map.mp hc with ⟨item, hitem, rfl⟩
    exact (mem_take_sorted_scored hitem).1
  · intro c hc
    rcases List.mem_map.mp hc with ⟨item, hitem, rfl⟩
    obtain ⟨-, hs, hgt⟩ := mem_take_sorted_scored hitem
    rwa [hs] at hgt
  · rw [topCandidates]
    rw [List.pairwise_map]
    have hsorted := sortKeyDesc_pairwise ScoredChunk.score
      ((scoredChunks vectorScore (queryWordsOf query) cachedChunks).filter
        (fun item => 3 / 10 < item.score))
    have htake : ((sortKeyDesc ScoredChunk.score
        ((scoredChunks vectorScore (queryWordsOf query) cachedChunks).filter
          (fun item => 3 / 10 < item.score))).take 15).Pairwise
        (fun a b => ScoredChunk.score b ≤ ScoredChunk.score a) :=
      hsorted.sublist (List.take_sublist 15 _)
    refine htake.imp_of_mem ?_
    intro a b ha hb hab
    have hsa := (mem_take_sorted_scored ha).2.1
    have hsb := (mem_take_sorted_scored hb).2.1
    rw [← hsa, ← hsb]
    exact hab
  · intro s
    exact sortKeyDesc_filter ScoredChunk.score _ s
  · intro embedOk rerank
    simp [performHybridRetrieval]

/-- Witness for `performHybridRetrieval_spec`: its inner
quantifications instantiated at the scenario fixture. -/
theorem performHybridRetrieval_spec_witness :
    chunkA ∈ topCandidates scenarioVectorScore scenarioQuery [chunkA, chunkB] ∧
      3 / 10 < hybridScore scenarioVectorScore (queryWordsOf scenarioQuery) chunkA ∧
      chunkA ∈ ([chunkA, chunkB] : List DocumentChunk) ∧
      performHybridRetrieval true scenarioVectorScore id scenarioQuery [] = ([], 0) := by
  obtain ⟨-, hsub, hthr, -, -, hempty, -, -, hrank⟩ :=
    performHybridRetrieval_spec scenarioVectorScore scenarioQuery [chunkA, chunkB]
  have hmem : chunkA ∈ topCandidates scenarioVectorScore scenarioQuery [chunkA, chunkB] := by
    rw [hrank]
    exact List.mem_cons_self _ _
  exact ⟨hmem, hthr chunkA hmem, hsub chunkA hmem, hempty true id⟩

/-! ## Document deletion (`storageService.deleteDocument`,
src/services/storageService.ts)

```
deleteDocument: async (id) => {
  const transaction = db.transaction([DOC_STORE, CHUNK_STORE], 'readwrite');
  ...
  docStore.delete(id);
  const request = chunkIndex.getAllKeys(id);
  request.onsuccess = () => {
    const keys = request.result;
    keys.forEach(key => chunkStore.delete(key));
  };
  ...
}
```

Both object stores are keyed by `id` (`keyPath: 'id'`), so IndexedDB
holds at most one record per key; the stores are modelled as record
lists and `delete(key)` removes every record carrying that key (with
unique keys, the one record).  `getAllKeys(id)` on the `docId` index
returns the primary keys of the chunks whose `docId` equals `id`. -/

structure StoreState where
  documents : List Document
  chunks : List DocumentChunk
deriving DecidableEq

def deleteDocument (st : StoreState) (id : String) : StoreState :=
  let keys := (st.chunks.filter (fun c => c.docId = id)).map DocumentChunk.id
  { documents := st.documents.filter (fun d => ¬ d.id = id),
    chunks := keys.foldl (fun cs k => cs.filter (fun c => ¬ c.id = k)) st.chunks }

theorem foldl_delete_keys (keys : List String) (cs : List DocumentChunk) :
    keys.foldl (fun cs k => cs.filter (fun c => ¬ c.id = k)) cs =
      cs.filter (fun c => ¬ c.id ∈ keys) := by
  induction keys generalizing cs with
  | nil => simp
  | cons k ks ih =>
    rw [List.foldl_cons, ih, List.filter_filter]
    apply List.filter_congr
    intro c _
    by_cases h1 : c.id = k
    · simp [h1]
    · by_cases h2 : c.id ∈ ks
      · simp [h1, h2]
      · simp [h1, h2]

/-- C7: deleting a document removes the document record with that id
and every chunk whose `docId` equals that id, and leaves every other
document and every chunk with a different `docId` unchanged (in their
original order).  The hypothesis is IndexedDB's primary-key uniqueness
for the chunk store. -/
theorem deleteDocument_spec (st : StoreState) (id : String)
    (hkeys : (st.chunks.map DocumentChunk.id).Nodup) :
    (deleteDocument st id).documents = st.documents.filter (fun d => ¬ d.id = id) ∧
      (deleteDocument st id).chunks = st.chunks.filter (fun c => ¬ c.docId = id) ∧
      (∀ d, d ∈ (deleteDocument st id).documents ↔ d ∈ st.documents ∧ ¬ d.id = id) ∧
      (∀ c, c ∈ (deleteDocument st id).chunks ↔ c ∈ st.chunks ∧ ¬ c.docId = id) := by
  have hinj : ∀ x ∈ st.chunks, ∀ y ∈ st.chunks, x.id = y.id → x = y :=
    List.inj_on_of_nodup_map hkeys
  have hchunks : (deleteDocument st id).chunks =
      st.chunks.filter (fun c => ¬ c.docId = id) := by
    rw [deleteDocument]
    rw [foldl_delete_keys]
    apply List.filter_congr
    intro c hc
    simp only [decide_not, List.mem_map, List.mem_filter]
    by_cases hd : c.docId = id
    · have : c.id ∈ (st.chunks.filter (fun c => c.docId = id)).map DocumentChunk.id := by
        refine List.mem_map.mpr ⟨c, ?_, rfl⟩
        refine List.mem_filter.mpr ⟨hc, by simpa using hd⟩
      simp [this, hd]
    · have : ¬ c.id ∈ (st.chunks.filter (fun c => c.docId = id)).map DocumentChunk.id := by
        intro hmem
        rcases List.mem_map.mp hmem with ⟨c', hc', hcc⟩
        rcases List.mem_filter.mp hc' with ⟨hc'mem, hc'doc⟩
        have : c' = c := hinj c' hc'mem c hc hcc
        subst this
        exact hd (by simpa using hc'doc)
      simp [this, hd]
  refine ⟨rfl, hchunks, ?_, ?_⟩
  · intro d
    rw [deleteDocument]
    simp [List.mem_filter]
  · intro c
    rw [hchunks]
    simp [List.mem_filter]

/-- A multi-document fixture: two documents, three chunks. -/
def fixtureStore : StoreState :=
  { documents :=
      [{ id := "d1", title := "one", content := [], type := "text",
         category := "General", tags := [], createdAt := 0 },
       { id := "d2", title := "two", content := [], type := "text",
         category := "General", tags := [], createdAt := 0 }],
    chunks :=
      [{ id := "k1", docId := "d1", docTitle := "one", text := [], embedding := [] },
       { id := "k2", docId := "d1", docTitle := "one", text := [], embedding := [] },
       { id := "k3", docId := "d2", docTitle := "two", text := [], embedding := [] }] }

/-- Witness for `deleteDocument_spec` on the multi-document fixture. -/
theorem deleteDocument_spec_witness :
    (deleteDocument fixtureStore "d1").chunks =
        fixtureStore.chunks.filter (fun c => ¬ c.docId = "d1") ∧
      (deleteDocument fixtureStore "d1").documents =
        fixtureStore.documents.filter (fun d => ¬ d.id = "d1") :=
  ⟨(deleteDocument_spec fixtureStore "d1" (by decide)).2.1,
    (deleteDocument_spec fixtureStore "d1" (by decide)).1⟩

/-! ## Streaming answer generators

`groqService.askGroqStream` (src/unnamed/part_002) keeps a running
`fullText` and, for every parsed stream line whose delta `content` is
non-empty, executes `fullText += content; yield { text: fullText,
sources }` — the cumulative text, never the delta.
`geminiService.askVoraStream` (src/services/geminiService.ts) yields on
every provider chunk: `fullText += chunk.text || ""`, merges the chunk's
`groundingMetadata.groundingChunks` into its accumulated web-source
list (skipping entries without a truthy `uri`, deduplicating by `url`,
defaulting the title to 'Web Source') and yields `{ text: fullText,
groundingSources: <acc if non-empty> , sources }`.

In both generators `sources` is computed once before the loop as
`Array.from(new Set(relevantChunks.map(c => c.docTitle)))`.  The
sequences of parsed deltas/provider chunks are parameters; the yield
sequence is a function of them. -/

structure StreamSnapshot where
  text : List Char
  sources : List String
  groundingSources : Option (List GroundingSource)
deriving DecidableEq

structure GroqSnapshot where
  text : List Char
  sources : List String
deriving DecidableEq

/-- `Array.from(new Set(xs))`: first-seen-order deduplication. -/
def dedupFirstSeen (xs : List String) : List String :=
  xs.foldl (fun acc t => if t ∈ acc then acc else acc ++ [t]) []

/-- One raw grounding entry: `c.web?.title` and `c.web?.uri` (`none`
models an absent `web` object or field). -/
structure RawGrounding where
  title : Option String
  uri : Option String
deriving DecidableEq

/-- One provider stream event for `askVoraStream`: `chunk.text` and
`chunk.candidates?.[0]?.groundingMetadata?.groundingChunks`. -/
structure GeminiEvent where
  text : Option (List Char)
  groundingChunks : Option (List RawGrounding)
deriving DecidableEq

def mergeGrounding (acc : List GroundingSource) (cs : List RawGrounding) :
    List GroundingSource :=
  cs.foldl
    (fun acc c =>
      match c.uri with
      | none => acc
      | some u =>
        if u = "" then acc
        else if acc.any (fun gs => gs.url = u) then acc
        else acc ++
          [{ title := match c.title with
              | none => "Web Source"
              | some t => if t = "" then "Web Source" else t,
             url := u }])
    acc

def askVoraStreamYieldsGo (sources : List String) :
    List Char → List GroundingSource → List GeminiEvent → List StreamSnapshot
  | _, _, [] => []
  | fullText, gs, e :: es =>
    let fullText2 := fullText ++ e.text.getD []
    let gs2 := match e.groundingChunks with
      | none => gs
      | some cs => mergeGrounding gs cs
    { text := fullText2, sources := sources,
        groundingSources := if 0 < gs2.length then some gs2 else none } ::
      askVoraStreamYieldsGo sources fullText2 gs2 es

def askVoraStreamYields (relevantChunks : List DocumentChunk)
    (events : List GeminiEvent) : List StreamSnapshot :=
  askVoraStreamYieldsGo (dedupFirstSeen (relevantChunks.map DocumentChunk.docTitle))
    [] [] events

def askGroqStreamYieldsGo (sources : List String) :
    List Char → List (List Char) → List GroqSnapshot
  | _, [] => []
  | fullText, content :: rest =>
    if content.isEmpty then askGroqStreamYieldsGo sources fullText rest
    else
      { text := fullText ++ content, sources := sources } ::
        askGroqStreamYieldsGo sources (fullText ++ content) rest

def askGroqStreamYields (relevantChunks : List DocumentChunk)
    (contents : List (List Char)) : List GroqSnapshot :=
  askGroqStreamYieldsGo (dedupFirstSeen (relevantChunks.map DocumentChunk.docTitle))
    [] contents

theorem askVoraStreamYieldsGo_prefix (sources : List String) (es : List GeminiEvent) :
    ∀ (t : List Char) (gs : List GroundingSource),
      ∀ s ∈ askVoraStreamYieldsGo sources t gs es, t <+: s.text := by
  induction es with
  | nil => intro t gs s hs; simp [askVoraStreamYieldsGo] at hs
  | cons e es ih =>
    intro t gs s hs
    rw [askVoraStreamYieldsGo] at hs
    rcases List.mem_cons.mp hs with rfl | hs
    · exact List.prefix_append t _
    · exact (List.prefix_append t (e.text.getD [])).trans (ih _ _ s hs)

theorem askVoraStreamYieldsGo_pairwise (sources : List String) (es : List GeminiEvent) :
    ∀ (t : List Char) (gs : List GroundingSource),
      (askVoraStreamYieldsGo sources t gs es).Pairwise
        (fun a b => a.text <+: b.text) := by
  induction es with
  | nil => intro t gs; simp [askVoraStreamYieldsGo]
  | cons e es ih =>
    intro t gs
    rw [askVoraStreamYieldsGo]
    refine List.pairwise_cons.mpr ⟨?_, ih _ _⟩
    intro s hs
    exact askVoraStreamYieldsGo_prefix sources es _ _ s hs

theorem askVoraStreamYieldsGo_sources (sources : List String) (es : List GeminiEvent) :
    ∀ (t : List Char) (gs : List GroundingSource),
      ∀ s ∈ askVoraStreamYieldsGo sources t gs es, s.sources = sources := by
  induction es with
  | nil => intro t gs s hs; simp [askVoraStreamYieldsGo] at hs
  | cons e es ih =>
    intro t gs s hs
    rw [askVoraStreamYieldsGo] at hs
    rcases List.mem_cons.mp hs with rfl | hs
    · rfl
    · exact ih _ _ s hs

theorem askGroqStreamYieldsGo_prefix (sources : List String) (rest : List (List Char)) :
    ∀ (t : List Char), ∀ s ∈ askGroqStreamYieldsGo sources t rest, t <+: s.text := by
  induction rest with
  | nil => intro t s hs; simp [askGroqStreamYieldsGo] at hs
  | cons content rest ih =>
    intro t s hs
    rw [askGroqStreamYieldsGo] at hs
    by_cases hc : content.isEmpty
    · rw [if_pos hc] at hs
      exact ih t s hs
    · rw [if_neg hc] at hs
      rcases List.mem_cons.mp hs with rfl | hs
      · exact List.prefix_append t content
      · exact (List.prefix_append t content).trans (ih _ s hs)

theorem askGroqStreamYieldsGo_pairwise (sources : List String) (rest : List (List Char)) :
    ∀ (t : List Char),
      (askGroqStreamYieldsGo sources t rest).Pairwise (fun a b => a.text <+: b.text) := by
  induction rest with
  | nil => intro t; simp [askGroqStreamYieldsGo]
  | cons content rest ih =>
    intro t
    rw [askGroqStreamYieldsGo]
    by_cases hc : content.isEmpty
    · rw [if_pos hc]
      exact ih t
    · rw [if_neg hc]
      refine List.pairwise_cons.mpr ⟨?_, ih _⟩
      intro s hs
      exact askGroqStreamYieldsGo_prefix sources rest _ s hs

theorem askGroqStreamYieldsGo_sources (sources : List String) (rest : List (List Char)) :
    ∀ (t : List Char), ∀ s ∈ askGroqStreamYieldsGo sources t rest, s.sources = sources := by
  induction rest with
  | nil => intro t s hs; simp [askGroqStreamYieldsGo] at hs
  | cons content rest ih =>
    intro t s hs
    rw [askGroqStreamYieldsGo] at hs
    by_cases hc : content.isEmpty
    · rw [if_pos hc] at hs
      exact ih t s hs
    · rw [if_neg hc] at hs
      rcases List.mem_cons.mp hs with rfl | hs
      · rfl
      · exact ih _ s hs

/-- C9: in both streaming generators every yielded snapshot carries
the cumulative answer text so far — the text of each snapshot extends
the previous snapshot's text as a prefix (stated as: pairwise along
the yield sequence, every earlier text is a prefix of every later
text) — and every snapshot carries the current sources list (the
first-seen-order deduplicated document titles of the chunks in use),
so a consumer can render the latest snapshot without accumulating
deltas. -/
theorem streaming_cumulative_spec (relevantChunks : List DocumentChunk)
    (events : List GeminiEvent) (contents : List (List Char)) :
    (askVoraStreamYields relevantChunks events).Pairwise
        (fun a b => a.text <+: b.text) ∧
      (∀ s ∈ askVoraStreamYields relevantChunks events,
        s.sources = dedupFirstSeen (relevantChunks.map DocumentChunk.docTitle)) ∧
      (askGroqStreamYields relevantChunks contents).Pairwise
        (fun a b => a.text <+: b.text) ∧
      (∀ s ∈ askGroqStreamYields relevantChunks contents,
        s.sources = dedupFirstSeen (relevantChunks.map DocumentChunk.docTitle)) :=
  ⟨askVoraStreamYieldsGo_pairwise _ events [] [],
    askVoraStreamYieldsGo_sources _ events [] [],
    askGroqStreamYieldsGo_pairwise _ contents [],
    askGroqStreamYieldsGo_sources _ contents []⟩

/-! ## Structure-aware chunker (`KnowledgeBase.chunkMarkdown`,
src/components/KnowledgeBase.tsx)

```
const chunkMarkdown = (text: string): string[] => {
  const sections = text.split(/(?=^#{1,3}\s)/m);
  const result: string[] = [];
  sections.forEach(section => {
    if (section.length < 1500) {
      if (section.trim()) result.push(section.trim());
    } else {
      const paras = section.split(/\n\n+/);
      let currentChunk = "";
      paras.forEach(para => {
        if ((currentChunk.length + para.length) > 1500) {
          if (currentChunk) result.push(currentChunk.trim());
          currentChunk = para;
        } else {
          currentChunk += (currentChunk ? "\n\n" : "") + para;
        }
      });
      if (currentChunk) result.push(currentChunk.trim());
    }
  });
  return result;
};
```

The lookahead split `/(?=^#{1,3}\s)/m` cuts the text immediately
before every line that starts with one to three `#` followed by a
whitespace character (a zero-width match at position 0 produces no
leading empty piece); `/\n\n+/` splits a section at each maximal run
of two or more newlines.  `trim` strips whitespace from both ends. -/

def isWs (c : Char) : Bool := c = ' ' || c = '\t' || c = '\n' || c = '\r'

/-- JS `String.prototype.trim` (over the ASCII whitespace occurring in
this model). -/
def jsTrim (l : List Char) : List Char :=
  ((l.dropWhile isWs).reverse.dropWhile isWs).reverse

/-- Split into lines, each keeping its terminating newline. -/
def splitLinesAux : List Char → List Char → List (List Char)
  | acc, [] => [acc.reverse]
  | acc, '\n' :: rest => ('\n' :: acc).reverse :: splitLinesAux [] rest
  | acc, c :: rest => splitLinesAux (c :: acc) rest

def splitLines (l : List Char) : List (List Char) := splitLinesAux [] l

/-- `^#{1,3}\s` at the start of a line: one to three `#` followed by a
whitespace character (a fourth `#` defeats the match). -/
def isHeadingLine : List Char → Bool
  | '#' :: '#' :: '#' :: c :: _ => isWs c
  | '#' :: '#' :: c :: _ => if c = '#' then false else isWs c
  | '#' :: c :: _ => if c = '#' then false else isWs c
  | _ => false

/-- Group lines into sections, cutting before each heading line; a
heading at position 0 opens the first section rather than emitting an
empty piece. -/
def sectionsAux : List Char → List (List Char) → List (List Char)
  | acc, [] => [acc]
  | acc, line :: rest =>
    if isHeadingLine line && !acc.isEmpty then
      acc :: sectionsAux line rest
    else
      sectionsAux (acc ++ line) rest

def sectionsOf (text : List Char) : List (List Char) :=
  sectionsAux [] (splitLines text)

def splitParasGo : ℕ → List Char → List Char → List (List Char)
  | 0, acc, _ => [acc.reverse]
  | _ + 1, acc, [] => [acc.reverse]
  | fuel + 1, acc, '\n' :: '\n' :: rest =>
    acc.reverse :: splitParasGo fuel [] (rest.dropWhile (fun c => c = '\n'))
  | fuel + 1, acc, c :: rest => splitParasGo fuel (c :: acc) rest

/-- `section.split(/\n\n+/)`. -/
def splitParas (l : List Char) : List (List Char) := splitParasGo l.length [] l

/-- One iteration of the paragraph loop: state = (result, currentChunk). -/
def paraStep (p : List (List Char) × List Char) (para : List Char) :
    List (List Char) × List Char :=
  if 1500 < p.2.length + para.length then
    (if p.2.isEmpty then p.1 else p.1 ++ [jsTrim p.2], para)
  else
    (p.1, if p.2.isEmpty then para else p.2 ++ '\n' :: '\n' :: para)

def chunkMarkdownSection (result : List (List Char)) (sect : List Char) :
    List (List Char) :=
  if sect.length < 1500 then
    (if (jsTrim sect).isEmpty then result else result ++ [jsTrim sect])
  else
    if ((splitParas sect).foldl paraStep (result, [])).2.isEmpty then
      ((splitParas sect).foldl paraStep (result, [])).1
    else
      ((splitParas sect).foldl paraStep (result, [])).1 ++
        [jsTrim ((splitParas sect).foldl paraStep (result, [])).2]

def chunkMarkdown (text : List Char) : List (List Char) :=
  (sectionsOf text).foldl chunkMarkdownSection []

theorem jsTrim_length_le (l : List Char) : (jsTrim l).length ≤ l.length := by
  rw [jsTrim]
  calc ((l.dropWhile isWs).reverse.dropWhile isWs).reverse.length
      = ((l.dropWhile isWs).reverse.dropWhile isWs).length := List.length_reverse _
    _ ≤ (l.dropWhile isWs).reverse.length :=
        (List.dropWhile_sublist _).length_le
    _ = (l.dropWhile isWs).length := List.length_reverse _
    _ ≤ l.length := (List.dropWhile_sublist _).length_le

theorem paraFold_invariant (P : List Char → Prop) (allParas : List (List Char))
    (hP1 : ∀ c : List Char, c.length ≤ 1502 → P c)
    (hP2 : ∀ p ∈ allParas, P (jsTrim p)) :
    ∀ (paras : List (List Char)), (∀ p ∈ paras, p ∈ allParas) →
      ∀ (res : List (List Char)) (cur : List Char),
        (∀ c ∈ res, P c) → (cur.length ≤ 1502 ∨ cur ∈ allParas) →
        (∀ c ∈ (paras.foldl paraStep (res, cur)).1, P c) ∧
          ((paras.foldl paraStep (res, cur)).2.length ≤ 1502 ∨
            (paras.foldl paraStep (res, cur)).2 ∈ allParas) := by
  intro paras
  induction paras with
  | nil =>
    intro _ res cur hres hcur
    exact ⟨hres, hcur⟩
  | cons para rest ih =>
    intro hsub res cur hres hcur
    have hpara : para ∈ allParas := hsub para (List.mem_cons_self _ _)
    have hsub2 : ∀ p ∈ rest, p ∈ allParas :=
      fun p hp => hsub p (List.mem_cons_of_mem _ hp)
    have htrimP : P (jsTrim cur) := by
      rcases hcur with hlen | hmem
      · exact hP1 _ (le_trans (jsTrim_length_le cur) hlen)
      · exact hP2 _ hmem
    rw [List.foldl_cons]
    by_cases hguard : 1500 < cur.length + para.length
    · by_cases hcurE : cur.isEmpty
      · have hstep : paraStep (res, cur) para = (res, para) := by
          simp [paraStep, hguard, hcurE]
        rw [hstep]
        exact ih hsub2 res para hres (Or.inr hpara)
      · have hstep : paraStep (res, cur) para = (res ++ [jsTrim cur], para) := by
          simp [paraStep, hguard, hcurE]
        rw [hstep]
        refine ih hsub2 _ para ?_ (Or.inr hpara)
        intro c hc
        rcases List.mem_append.mp hc with hc | hc
        · exact hres c hc
        · have hce : c = jsTrim cur := List.mem_singleton.mp hc
          rw [hce]
          exact htrimP
    · by_cases hcurE : cur.isEmpty
      · have hstep : paraStep (res, cur) para = (res, para) := by
          simp [paraStep, hguard, hcurE]
        rw [hstep]
        exact ih hsub2 res para hres (Or.inr hpara)
      · have hstep : paraStep (res, cur) para =
            (res, cur ++ '\n' :: '\n' :: para) := by
          simp [paraStep, hguard, hcurE]
        rw [hstep]
        have hlen : (cur ++ '\n' :: '\n' :: para).length ≤ 1502 := by
          rw [List.length_append, List.length_cons, List.length_cons]
          have := not_lt.mp hguard
          omega
        exact ih hsub2 res _ hres (Or.inl hlen)

theorem chunkMarkdownSection_invariant (P : List Char → Prop)
    (hP1 : ∀ c : List Char, c.length ≤ 1502 → P c)
    (sect : List Char) (hsect : ∀ p ∈ splitParas sect, P (jsTrim p))
    (res : List (List Char)) (hres : ∀ c ∈ res, P c) :
    ∀ c ∈ chunkMarkdownSection res sect, P c := by
  intro c hc
  rw [chunkMarkdownSection] at hc
  by_cases hsmall : sect.length < 1500
  · rw [if_pos hsmall] at hc
    by_cases htriv : (jsTrim sect).isEmpty
    · rw [if_pos htriv] at hc
      exact hres c hc
    · rw [if_neg htriv] at hc
      rcases List.mem_append.mp hc with hc | hc
      · exact hres c hc
      · have hce : c = jsTrim sect := List.mem_singleton.mp hc
        rw [hce]
        exact hP1 _ (le_trans (jsTrim_length_le sect) (by omega))
  · rw [if_neg hsmall] at hc
    obtain ⟨hres2, hcur2⟩ := paraFold_invariant P (splitParas sect) hP1 hsect
      (splitParas sect) (fun p hp => hp) res [] hres (Or.inl (by simp))
    have htrimP : P (jsTrim ((splitParas sect).foldl paraStep (res, [])).2) := by
      rcases hcur2 with hlen | hmem
      · exact hP1 _ (le_trans (jsTrim_length_le _) hlen)
      · exact hsect _ hmem
    by_cases hE : ((splitParas sect).foldl paraStep (res, [])).2.isEmpty
    · rw [if_pos hE] at hc
      exact hres2 c hc
    · rw [if_neg hE] at hc
      rcases List.mem_append.mp hc with hc | hc
      · exact hres2 c hc
      · have hce : c = jsTrim ((splitParas sect).foldl paraStep (res, [])).2 :=
          List.mem_singleton.mp hc
        rw [hce]
        exact htrimP

theorem chunkMarkdown_invariant (text : List Char) :
    ∀ c ∈ chunkMarkdown text,
      c.length ≤ 1502 ∨
        ∃ sect ∈ sectionsOf text, ∃ p ∈ splitParas sect, c = jsTrim p := by
  have main : ∀ (sects : List (List Char)), (∀ s ∈ sects, s ∈ sectionsOf text) →
      ∀ res : List (List Char),
        (∀ c ∈ res, c.length ≤ 1502 ∨
          ∃ sect ∈ sectionsOf text, ∃ p ∈ splitParas sect, c = jsTrim p) →
        ∀ c ∈ sects.foldl chunkMarkdownSection res,
          c.length ≤ 1502 ∨
            ∃ sect ∈ sectionsOf text, ∃ p ∈ splitParas sect, c = jsTrim p := by
    intro sects
    induction sects with
    | nil =>
      intro _ res hres
      exact hres
    | cons s ss ih =>
      intro hsub res hres
      rw [List.foldl_cons]
      refine ih (fun x hx => hsub x (List.mem_cons_of_mem _ hx)) _ ?_
      apply chunkMarkdownSection_invariant _ ?_ s ?_ res hres
      · intro c hcl
        exact Or.inl hcl
      · intro p hp
        exact Or.inr ⟨s, hsub s (List.mem_cons_self _ _), p, hp, rfl⟩
  rw [chunkMarkdown]
  refine main (sectionsOf text) (fun s hs => hs) [] ?_
  intro c hc
  simp at hc

/-- Fixture: a 749-unit paragraph followed by a blank line and a
750-unit paragraph — 1501 units in all, no headings, and neither
paragraph exceeds the 1500 cap. -/
def paraA : List Char := List.replicate 749 'a'

def paraB : List Char := List.replicate 750 'b'

def overshootText : List Char := paraA ++ '\n' :: '\n' :: paraB

/-- C6 counterexample: on `overshootText` the markdown chunker emits a
single 1501-unit chunk although no single paragraph (and no single
section treated as one paragraph) exceeds the 1500 cap: the flush
guard compares `currentChunk.length + para.length` without counting
the two-character `"\n\n"` separator it then inserts. -/
theorem chunkMarkdown_cap_counterexample :
    (∃ c ∈ chunkMarkdown overshootText, 1500 < c.length) ∧
      (∀ sect ∈ sectionsOf overshootText, ∀ p ∈ splitParas sect,
        p.length ≤ 1500) := by
  constructor
  · exact ⟨overshootText, by decide, by decide⟩
  · decide

/-- C6 (amended): every chunk emitted by the structure-aware chunker
either has length at most 1502 — the 1500 cap can be overshot by one
two-character blank-line separator, which the flush guard does not
count — or is the trimmed form of a single blank-line-delimited
paragraph of one of the heading-delimited sections (in particular, a
single paragraph exceeding the cap is emitted whole, trimmed); and
empty text yields the empty chunk list. -/
theorem chunkMarkdown_spec (text : List Char) :
    (∀ c ∈ chunkMarkdown text,
      c.length ≤ 1502 ∨
        ∃ sect ∈ sectionsOf text, ∃ p ∈ splitParas sect, c = jsTrim p) ∧
      chunkMarkdown [] = [] :=
  ⟨chunkMarkdown_invariant text, rfl⟩

/-- Witness for `chunkMarkdown_spec`: the 1501-unit chunk of the
fixture satisfies the amended bound. -/
theorem chunkMarkdown_spec_witness :
    overshootText.length ≤ 1502 ∨
      ∃ sect ∈ sectionsOf overshootText, ∃ p ∈ splitParas sect,
        overshootText = jsTrim p :=
  (chunkMarkdown_spec overshootText).1 overshootText (by decide)

/-! ## Session listing and its view-refresh paths

`storageService.getChatSessions` (src/vite.config.ts, storage part):

```
const request = store.getAll();
request.onsuccess = () => {
  const results = request.result as ChatSession[];
  resolve(results.sort((a, b) => b.updatedAt - a.updatedAt));
};
```

The three paths that refresh the session list shown to the user
(src/App.tsx):
- initial load (`loadData`):
  `(storedSessions || []).filter(s => s && s.id && Array.isArray(s.messages))`;
- post-save refresh (the messages-sync effect):
  `(fetched || []).filter(s => s && s.id)` — no `Array.isArray` check;
- first-message creation (`handleFirstMessageSent`):
  `storageService.getChatSessions().then(setSessions)` — no filter.

A stored record's `id` is a `String` ("" models the JS-falsy
missing/empty id) and its `messages` field is `Option (List Message)`
(`none` models a stored value that is not a proper array). -/

structure RawSession where
  id : String
  title : List Char
  messages : Option (List Message)
  updatedAt : ℤ
deriving DecidableEq

def getChatSessions (stored : List RawSession) : List RawSession :=
  sortKeyDesc (fun s => s.updatedAt) stored

def loadDataSessions (stored : List RawSession) : List RawSession :=
  (getChatSessions stored).filter (fun s => s.id ≠ "" && s.messages.isSome)

def postSaveSessions (stored : List RawSession) : List RawSession :=
  (getChatSessions stored).filter (fun s => s.id ≠ "")

def firstMessageSessions (stored : List RawSession) : List RawSession :=
  getChatSessions stored

/-- A stored record with an id but a malformed `messages` field. -/
def malformedSession : RawSession :=
  { id := "x", title := [], messages := none, updatedAt := 5 }

/-- A well-formed stored record. -/
def goodSession : RawSession :=
  { id := "y", title := [], messages := some [], updatedAt := 3 }

/-- C8 counterexample: a stored record whose `messages` field is not a
proper list reaches the session list unchanged on the post-save
refresh path (whose filter only checks the id) and on the
first-message path (which applies no filter at all). -/
theorem sessionList_filter_counterexample :
    malformedSession ∈ postSaveSessions [malformedSession] ∧
      malformedSession ∈ firstMessageSessions [malformedSession] ∧
      malformedSession.messages.isSome = false := by
  decide

/-- C8 (amended): the listing returns the stored records sorted by
`updatedAt` descending (ties in stored order: restricting to any fixed
`updatedAt` preserves the stored sequence); the initial-load path
discards exactly the records with a falsy id or a non-list `messages`
field; the post-save refresh discards only records with a falsy id —
a record with an id but a malformed `messages` field passes through —
and the first-message path applies no filtering at all. -/
theorem sessionList_spec (stored : List RawSession) :
    (getChatSessions stored).Pairwise (fun a b => b.updatedAt ≤ a.updatedAt) ∧
      (∀ s : RawSession, s ∈ getChatSessions stored ↔ s ∈ stored) ∧
      (∀ t : ℤ, (getChatSessions stored).filter (fun s => s.updatedAt = t) =
        stored.filter (fun s => s.updatedAt = t)) ∧
      (∀ s : RawSession, s ∈ loadDataSessions stored ↔
        s ∈ stored ∧ s.id ≠ "" ∧ s.messages.isSome = true) ∧
      (∀ s : RawSession, s ∈ postSaveSessions stored ↔ s ∈ stored ∧ s.id ≠ "") ∧
      firstMessageSessions stored = getChatSessions stored := by
  refine ⟨sortKeyDesc_pairwise _ stored, fun s => sortKeyDesc_mem _,
    fun t => sortKeyDesc_filter _ stored t, ?_, ?_, rfl⟩
  · intro s
    rw [loadDataSessions, List.mem_filter, getChatSessions,
      sortKeyDesc_mem]
    simp [and_assoc]
  · intro s
    rw [postSaveSessions, List.mem_filter, getChatSessions, sortKeyDesc_mem]
    simp

/-- Witness for `sessionList_spec` on a concrete two-record store. -/
theorem sessionList_spec_witness :
    goodSession ∈ loadDataSessions [malformedSession, goodSession] ∧
      malformedSession ∈ postSaveSessions [malformedSession, goodSession] := by
  constructor
  · exact ((sessionList_spec [malformedSession, goodSession]).2.2.2.1
      goodSession).mpr ⟨by decide, by decide, by decide⟩
  · exact ((sessionList_spec [malformedSession, goodSession]).2.2.2.2.1
      malformedSession).mpr ⟨by decide, by decide⟩

/-! ## Session sync during a streaming turn
(`App` messages-sync effect + `ChatInterface.handleSend`)

`App`'s sync effect (src/App.tsx):

```
useEffect(() => {
  if (currentChatId && messages.length > 0) {
    ...
    storageService.saveChatSession(updatedSession).then(...)
  }
}, [messages, currentChatId]);
```

— the active session is written to the persisted store on EVERY
committed change of `messages` while a chat id is active, not only
when a turn ends.  `handleSend` (src/components/ChatInterface.tsx)
drives one assistant turn through these `messages` states:

1. append the user message (`onFirstMessage` creates the session and
   sets the chat id when none is active);
2. append `aiPlaceholder` with `isStreaming: true`;
3. for every stream snapshot, replace the placeholder's content,
   sources and grounding sources (`isStreaming` stays true);
4. on completion, map `isStreaming: false` onto the placeholder; on a
   thrown error, replace its content with
   `"Intelligence sync failed: <err>."` and clear `isStreaming`.

`handleSendStates` lists these successive states.  React may coalesce
adjacent synchronous updates into one commit, but every state produced
after an await point — in particular each mid-stream update of step 3
— is committed, and the sync effect persists each committed state
whose message list is non-empty (the chat id is active from step 1
on). -/

structure ChatSnapshot where
  text : List Char
  sources : List String
  groundingSources : Option (List GroundingSource)
deriving DecidableEq

def mkUserMessage (id : String) (content : List Char) (ts : ℕ) : Message :=
  { id := id, role := .user, content := content, timestamp := ts,
    sources := none, groundingSources := none, isStreaming := false }

def aiPlaceholder (aiMsgId : String) (ts : ℕ) : Message :=
  { id := aiMsgId, role := .model, content := [], timestamp := ts,
    sources := none, groundingSources := none, isStreaming := true }

def applyStreamChunk (aiMsgId : String) (snap : ChatSnapshot)
    (msgs : List Message) : List Message :=
  msgs.map (fun m =>
    if m.id = aiMsgId then
      { m with
        content := snap.text
        sources := some snap.sources
        groundingSources := snap.groundingSources }
    else m)

def finishStreaming (aiMsgId : String) (msgs : List Message) : List Message :=
  msgs.map (fun m =>
    if m.id = aiMsgId then { m with isStreaming := false } else m)

def failStreaming (aiMsgId : String) (err : List Char) (msgs : List Message) :
    List Message :=
  msgs.map (fun m =>
    if m.id = aiMsgId then
      { m with
        content := "Intelligence sync failed: ".toList ++ err ++ ".".toList
        isStreaming := false }
    else m)

/-- The committed states during step 3, one per stream snapshot. -/
def streamStates (aiMsgId : String) :
    List Message → List ChatSnapshot → List (List Message)
  | _, [] => []
  | s, c :: cs =>
    applyStreamChunk aiMsgId c s ::
      streamStates aiMsgId (applyStreamChunk aiMsgId c s) cs

/-- Step 4: `err = none` is normal completion, `some e` the catch
branch. -/
def terminalState (aiMsgId : String) (err : Option (List Char))
    (s : List Message) : List Message :=
  match err with
  | none => finishStreaming aiMsgId s
  | some e => failStreaming aiMsgId e s

def afterUserAppend (initial : List Message) (isNewChat : Bool)
    (userMsgId : String) (userContent : List Char) (ts : ℕ) : List Message :=
  if isNewChat then [mkUserMessage userMsgId userContent ts]
  else initial ++ [mkUserMessage userMsgId userContent ts]

def afterPlaceholder (initial : List Message) (isNewChat : Bool)
    (userMsgId : String) (userContent : List Char) (ts : ℕ)
    (aiMsgId : String) : List Message :=
  afterUserAppend initial isNewChat userMsgId userContent ts ++
    [aiPlaceholder aiMsgId ts]

def finalTurnState (initial : List Message) (isNewChat : Bool)
    (userMsgId : String) (userContent : List Char) (ts : ℕ) (aiMsgId : String)
    (snaps : List ChatSnapshot) (err : Option (List Char)) : List Message :=
  terminalState aiMsgId err
    (snaps.foldl (fun s c => applyStreamChunk aiMsgId c s)
      (afterPlaceholder initial isNewChat userMsgId userContent ts aiMsgId))

def handleSendStates (initial : List Message) (isNewChat : Bool)
    (userMsgId : String) (userContent : List Char) (ts : ℕ) (aiMsgId : String)
    (snaps : List ChatSnapshot) (err : Option (List Char)) :
    List (List Message) :=
  afterUserAppend initial isNewChat userMsgId userContent ts ::
    afterPlaceholder initial isNewChat userMsgId userContent ts aiMsgId ::
    (streamStates aiMsgId
        (afterPlaceholder initial isNewChat userMsgId userContent ts aiMsgId)
        snaps ++
      [finalTurnState initial isNewChat userMsgId userContent ts aiMsgId snaps err])

/-- The snapshots the sync effect writes to the persisted store during
one turn: every committed state with a non-empty message list (the
active-chat-id condition holds from the first state on). -/
def savedDuringTurn (initial : List Message) (isNewChat : Bool)
    (userMsgId : String) (userContent : List Char) (ts : ℕ) (aiMsgId : String)
    (snaps : List ChatSnapshot) (err : Option (List Char)) :
    List (List Message) :=
  (handleSendStates initial isNewChat userMsgId userContent ts aiMsgId snaps
    err).filter (fun msgs => !msgs.isEmpty)

/-- C1 counterexample: on a fresh chat with a single stream snapshot,
the placeholder state (step 2) and the mid-stream state (step 3) are
both written to the persisted store while their assistant message
still has `isStreaming = true` — the store is synced on every
`messages` change, not only after the turn ends. -/
theorem midstream_persist_counterexample :
    ∃ msgs ∈ savedDuringTurn [] true "1" "hi".toList 0 "2"
        [{ text := "Hel".toList, sources := [], groundingSources := none }] none,
      ∃ m ∈ msgs, m.isStreaming = true := by
  decide

theorem applyStreamChunk_preserves (aiMsgId : String) (snap : ChatSnapshot)
    (s : List Message)
    (h : ∀ m ∈ s, m.id ≠ aiMsgId → m.isStreaming = false) :
    ∀ m ∈ applyStreamChunk aiMsgId snap s,
      m.id ≠ aiMsgId → m.isStreaming = false := by
  intro m hm
  rw [applyStreamChunk] at hm
  rcases List.mem_map.mp hm with ⟨m0, hm0, rfl⟩
  by_cases hid : m0.id = aiMsgId
  · simp only [if_pos hid]
    intro hne
    exact absurd hid hne
  · simp only [if_neg hid]
    exact h m0 hm0

theorem foldlStream_preserves (aiMsgId : String) (snaps : List ChatSnapshot) :
    ∀ (s : List Message),
      (∀ m ∈ s, m.id ≠ aiMsgId → m.isStreaming = false) →
      ∀ m ∈ snaps.foldl (fun s c => applyStreamChunk aiMsgId c s) s,
        m.id ≠ aiMsgId → m.isStreaming = false := by
  induction snaps with
  | nil => intro s h; exact h
  | cons c cs ih =>
    intro s h
    rw [List.foldl_cons]
    exact ih _ (applyStreamChunk_preserves aiMsgId c s h)

theorem terminalState_no_streaming (aiMsgId : String) (err : Option (List Char))
    (s : List Message)
    (h : ∀ m ∈ s, m.id ≠ aiMsgId → m.isStreaming = false) :
    ∀ m ∈ terminalState aiMsgId err s, m.isStreaming = false := by
  intro m hm
  cases err with
  | none =>
    rw [terminalState, finishStreaming] at hm
    rcases List.mem_map.mp hm with ⟨m0, hm0, rfl⟩
    by_cases hid : m0.id = aiMsgId
    · simp only [if_pos hid]
    · simp only [if_neg hid]
      exact h m0 hm0 hid
  | some e =>
    rw [terminalState, failStreaming] at hm
    rcases List.mem_map.mp hm with ⟨m0, hm0, rfl⟩
    by_cases hid : m0.id = aiMsgId
    · simp only [if_pos hid]
    · simp only [if_neg hid]
      exact h m0 hm0 hid

theorem afterPlaceholder_clean (initial : List Message) (isNewChat : Bool)
    (userMsgId : String) (userContent : List Char) (ts : ℕ) (aiMsgId : String)
    (hclean : ∀ m ∈ initial, m.isStreaming = false) :
    ∀ m ∈ afterPlaceholder initial isNewChat userMsgId userContent ts aiMsgId,
      m.id ≠ aiMsgId → m.isStreaming = false := by
  intro m hm hne
  rw [afterPlaceholder] at hm
  rcases List.mem_append.mp hm with hm | hm
  · rw [afterUserAppend] at hm
    by_cases hnew : isNewChat
    · rw [if_pos hnew] at hm
      have he : m = mkUserMessage userMsgId userContent ts :=
        List.mem_singleton.mp hm
      rw [he]
      rfl
    · rw [if_neg hnew] at hm
      rcases List.mem_append.mp hm with hm | hm
      · exact hclean m hm
      · have he : m = mkUserMessage userMsgId userContent ts :=
          List.mem_singleton.mp hm
        rw [he]
        rfl
  · have he : m = aiPlaceholder aiMsgId ts := List.mem_singleton.mp hm
    rw [he] at hne
    exact absurd rfl hne

theorem streamStates_length (aiMsgId : String) (snaps : List ChatSnapshot) :
    ∀ (s : List Message), ∀ st ∈ streamStates aiMsgId s snaps,
      st.length = s.length := by
  induction snaps with
  | nil => intro s st hst; simp [streamStates] at hst
  | cons c cs ih =>
    intro s st hst
    rw [streamStates] at hst
    rcases List.mem_cons.mp hst with rfl | hst
    · exact List.length_map _ _
    · rw [ih (applyStreamChunk aiMsgId c s) st hst]
      exact List.length_map _ _

theorem foldlStream_length (aiMsgId : String) (snaps : List ChatSnapshot) :
    ∀ (s : List Message),
      (snaps.foldl (fun s c => applyStreamChunk aiMsgId c s) s).length =
        s.length := by
  induction snaps with
  | nil => intro s; rfl
  | cons c cs ih =>
    intro s
    rw [List.foldl_cons, ih]
    exact List.length_map _ _

theorem handleSendStates_nonempty (initial : List Message) (isNewChat : Bool)
    (userMsgId : String) (userContent : List Char) (ts : ℕ) (aiMsgId : String)
    (snaps : List ChatSnapshot) (err : Option (List Char)) :
    ∀ st ∈ handleSendStates initial isNewChat userMsgId userContent ts aiMsgId
      snaps err, 0 < st.length := by
  have hph : 0 < (afterPlaceholder initial isNewChat userMsgId userContent ts
      aiMsgId).length := by
    rw [afterPlaceholder, List.length_append]
    simp
  intro st hst
  rw [handleSendStates] at hst
  rcases List.mem_cons.mp hst with rfl | hst
  · rw [afterUserAppend]
    by_cases hnew : isNewChat
    · simp [hnew]
    · simp [hnew]
  rcases List.mem_cons.mp hst with rfl | hst
  · exact hph
  rcases List.mem_append.mp hst with hst | hst
  · rw [streamStates_length aiMsgId snaps _ st hst]
    exact hph
  · have he : st = finalTurnState initial isNewChat userMsgId userContent ts
        aiMsgId snaps err := List.mem_singleton.mp hst
    rw [he, finalTurnState]
    cases err with
    | none =>
      rw [terminalState, finishStreaming, List.length_map, foldlStream_length]
      exact hph
    | some e =>
      rw [terminalState, failStreaming, List.length_map, foldlStream_length]
      exact hph

/-- C1 (amended): the session store is synced on every committed
change of the active chat's message list — so ALL states of the turn
are persisted, including mid-stream snapshots whose assistant message
still has `isStreaming = true` (see the counterexample) — and the last
snapshot persisted for the turn is the terminal state produced when
the turn completes or fails terminally; provided the conversation's
prior messages carried no streaming flag, that final persisted
snapshot contains no message with `isStreaming = true`. -/
theorem finalPersistedState_no_streaming (initial : List Message)
    (isNewChat : Bool) (userMsgId : String) (userContent : List Char) (ts : ℕ)
    (aiMsgId : String) (snaps : List ChatSnapshot) (err : Option (List Char))
    (hclean : ∀ m ∈ initial, m.isStreaming = false) :
    savedDuringTurn initial isNewChat userMsgId userContent ts aiMsgId snaps
        err =
      handleSendStates initial isNewChat userMsgId userContent ts aiMsgId snaps
        err ∧
      (savedDuringTurn initial isNewChat userMsgId userContent ts aiMsgId snaps
          err).getLast? =
        some (finalTurnState initial isNewChat userMsgId userContent ts aiMsgId
          snaps err) ∧
      (∀ m ∈ finalTurnState initial isNewChat userMsgId userContent ts aiMsgId
        snaps err, m.isStreaming = false) := by
  have heq : savedDuringTurn initial isNewChat userMsgId userContent ts aiMsgId
      snaps err =
      handleSendStates initial isNewChat userMsgId userContent ts aiMsgId snaps
        err := by
    rw [savedDuringTurn]
    apply List.filter_eq_self.mpr
    intro st hst
    have := handleSendStates_nonempty initial isNewChat userMsgId userContent
      ts aiMsgId snaps err st hst
    simp only [Bool.not_eq_true', List.isEmpty_eq_false_iff_exists_mem]
    cases st with
    | nil => simp at this
    | cons a l => exact ⟨a, List.mem_cons_self _ _⟩
  refine ⟨heq, ?_, ?_⟩
  · rw [heq, handleSendStates]
    rw [show afterUserAppend initial isNewChat userMsgId userContent ts ::
        afterPlaceholder initial isNewChat userMsgId userContent ts aiMsgId ::
        (streamStates aiMsgId
            (afterPlaceholder initial isNewChat userMsgId userContent ts
              aiMsgId) snaps ++
          [finalTurnState initial isNewChat userMsgId userContent ts aiMsgId
            snaps err]) =
        (afterUserAppend initial isNewChat userMsgId userContent ts ::
          afterPlaceholder initial isNewChat userMsgId userContent ts aiMsgId ::
          streamStates aiMsgId
            (afterPlaceholder initial isNewChat userMsgId userContent ts
              aiMsgId) snaps) ++
          [finalTurnState initial isNewChat userMsgId userContent ts aiMsgId
            snaps err] by simp]
    exact List.getLast?_concat _
  · rw [finalTurnState]
    apply terminalState_no_streaming
    apply foldlStream_preserves
    exact afterPlaceholder_clean initial isNewChat userMsgId userContent ts
      aiMsgId hclean

/-- Witness for `finalPersistedState_no_streaming` on the concrete
one-snapshot turn of the counterexample. -/
theorem finalPersistedState_no_streaming_witness :
    (savedDuringTurn [] true "1" "hi".toList 0 "2"
          [{ text := "Hel".toList, sources := [], groundingSources := none }]
          none).getLast? =
        some (finalTurnState [] true "1" "hi".toList 0 "2"
          [{ text := "Hel".toList, sources := [], groundingSources := none }]
          none) ∧
      (mkUserMessage "1" "hi".toList 0).isStreaming = false := by
  obtain ⟨-, hlast, hfin⟩ :=
    finalPersistedState_no_streaming [] true "1" "hi".toList 0 "2"
      [{ text := "Hel".toList, sources := [], groundingSources := none }] none
      (by intro m hm; simp at hm)
  exact ⟨hlast, hfin _ (by decide)⟩
